import Mathlib

/-!
A formal model of `generate_index.js` from the `collect_node` repository,
together with proofs about its traversal filter, sort order, HTML renderer
and write-if-changed guard.  The repository holds two variants of the
script: the canonical one (hidden-entry skip, static footer, idempotent
write) and an older variant (no hidden-entry skip, live-timestamp footer,
unconditional write).  Both are embedded below.

Modelling conventions:
* A directory tree is the mutual inductive `FSEntry`/`FSList`; the order of
  a directory's children models the filesystem's native listing order that
  `fs.readdirSync` returns.
* JavaScript strings are modelled by Lean `String`; `item.startsWith "."`
  becomes `startsWithDot`, the extension regex becomes `extMatches`, and
  `Array.prototype.sort()`'s default comparator (code-unit-wise string
  comparison) becomes `strLe`, with `sortFiles` a stable comparison sort.
* `path.join`/`path.relative` collapse to `joinPath` because the traversal
  root is `"."` and Node normalises away the leading `./`.
-/

mutual
inductive FSEntry where
  | file (name : String) : FSEntry
  | dir (name : String) (children : FSList) : FSEntry
inductive FSList where
  | nil : FSList
  | cons (e : FSEntry) (es : FSList) : FSList
end

/-- Model of the JavaScript test `item.startsWith "."` used to skip hidden
entries: true exactly when the first character of the name is a dot. -/
def startsWithDot (s : String) : Bool :=
  match s.data with
  | [] => false
  | c :: _ => c == '.'

/-- The fixed extension whitelist appearing in the regex
`/\.(txt|md|json|csv|log|ini|xml|yaml|yml)$/i` of both script variants. -/
def extWhitelist : List String := ["txt", "md", "json", "csv", "log", "ini", "xml", "yaml", "yml"]

/-- Model of the case-insensitive regex test
`/\.(txt|md|json|csv|log|ini|xml|yaml|yml)$/i.test(item)`: the lowercased
name ends in a dot followed by a whitelisted extension. -/
def extMatches (name : String) : Bool :=
  extWhitelist.any (fun e => (("." ++ e).data).isSuffixOf (name.data.map Char.toLower))

/-- Model of `path.join(dir, item)` (equally of the `relPath` computation
`path.relative('.', fullPath)` with separators normalised to `/`): the
scan starts at `"."`, which Node normalises away, so the accumulated
relative path of the enclosing directory is joined to the entry name with
a single forward slash, and the root contributes the empty path. -/
def joinPath (p n : String) : String := if p = "" then n else p ++ "/" ++ n

mutual
/-- Canonical variant: the body of the `for (const item of items)` loop of
`walk` for one entry.  A hidden entry (leading dot) is skipped entirely; a
non-hidden directory is recursed into; a non-hidden file is collected when
the extension regex matches. -/
def walkEntry (pre : String) : FSEntry → List String
  | FSEntry.file n => if startsWithDot n then [] else if extMatches n then [joinPath pre n] else []
  | FSEntry.dir n cs => if startsWithDot n then [] else walkEntries (joinPath pre n) cs
/-- Canonical variant: `walk` over a directory listing, concatenating the
collected relative paths in listing order (the JS version pushes into one
shared accumulator array, which yields the same order). -/
def walkEntries (pre : String) : FSList → List String
  | FSList.nil => []
  | FSList.cons e es => walkEntry pre e ++ walkEntries pre es
end

/-- The UTF-16 code units of one Unicode code point: the code point itself
below U+10000, and the surrogate pair for supplementary-plane code points.
JavaScript strings are sequences of UTF-16 code units, and its string
comparison operates on them. -/
def utf16Units (c : Char) : List Nat :=
  if c.toNat < 65536 then [c.toNat]
  else [55296 + (c.toNat - 65536) / 1024, 56320 + (c.toNat - 65536) % 1024]

/-- Lexicographic comparison of code-unit lists. -/
def natListLe : List Nat → List Nat → Bool
  | [], _ => true
  | _ :: _, [] => false
  | a :: as, b :: bs =>
      if a < b then true
      else if b < a then false
      else natListLe as bs

/-- `strLe a b` models `a <= b` for JavaScript's default sort comparator:
lexicographic comparison of the strings' UTF-16 code-unit sequences. -/
def strLe (a b : String) : Bool :=
  natListLe (a.data.flatMap utf16Units) (b.data.flatMap utf16Units)

/-- `strLe` as a decidable relation, for use with `List.insertionSort`. -/
def strLeRel (a b : String) : Prop := strLe a b = true

instance : DecidableRel strLeRel := fun a b => instDecidableEqBool (strLe a b) true

/-- The ordering named by the spec's sort sentence (not the code's):
lexicographic comparison of Unicode code points.  It agrees with the
code's UTF-16 order exactly on strings without supplementary-plane
characters. -/
def codePointLe : List Char → List Char → Bool
  | [], _ => true
  | _ :: _, [] => false
  | a :: as, b :: bs =>
      if a.toNat < b.toNat then true
      else if b.toNat < a.toNat then false
      else codePointLe as bs

/-- String form of the spec's code-point ordering. -/
def strCpLe (a b : String) : Bool := codePointLe a.data b.data

theorem natListLe_total (x y : List Nat) : natListLe x y = true ∨ natListLe y x = true := by
  induction x generalizing y with
  | nil => left; rfl
  | cons c cs ih =>
    cases y with
    | nil => right; rfl
    | cons d ds =>
      by_cases h1 : c < d
      · left; simp [natListLe, h1]
      · by_cases h2 : d < c
        · right; simp [natListLe, h1, h2]
        · rcases ih ds with h | h
          · left; simpa [natListLe, h1, h2] using h
          · right; simpa [natListLe, h1, h2] using h

theorem natListLe_trans (x y z : List Nat) (h1 : natListLe x y = true)
    (h2 : natListLe y z = true) : natListLe x z = true := by
  induction x generalizing y z with
  | nil => rfl
  | cons p ps ih =>
    cases y with
    | nil => exact absurd h1 (by simp [natListLe])
    | cons q qs =>
      cases z with
      | nil => exact absurd h2 (by simp [natListLe])
      | cons r rs =>
        simp only [natListLe] at h1 h2 ⊢
        split_ifs at h1 h2 ⊢ <;>
          first
          | rfl
          | omega
          | (exact ih qs rs h1 h2)

instance : IsTotal String strLeRel :=
  ⟨fun a b => natListLe_total (a.data.flatMap utf16Units) (b.data.flatMap utf16Units)⟩

instance : IsTrans String strLeRel :=
  ⟨fun a b c h1 h2 =>
    natListLe_trans (a.data.flatMap utf16Units) (b.data.flatMap utf16Units)
      (c.data.flatMap utf16Units) h1 h2⟩

/-- On character lists without supplementary-plane characters, the UTF-16
code-unit comparison coincides with the code-point comparison. -/
theorem natListLe_utf16_eq_codePointLe :
    ∀ (x y : List Char), (∀ c ∈ x, c.toNat < 65536) → (∀ c ∈ y, c.toNat < 65536) →
      natListLe (x.flatMap utf16Units) (y.flatMap utf16Units) = codePointLe x y
  | [], _, _, _ => rfl
  | c :: cs, [], hx, _ => by
      rw [List.flatMap_cons, show utf16Units c = [c.toNat] from by
        simp [utf16Units, hx c (List.mem_cons_self c cs)]]
      rfl
  | c :: cs, d :: ds, hx, hy => by
      rw [List.flatMap_cons, List.flatMap_cons,
        show utf16Units c = [c.toNat] from by
          simp [utf16Units, hx c (List.mem_cons_self c cs)],
        show utf16Units d = [d.toNat] from by
          simp [utf16Units, hy d (List.mem_cons_self d ds)]]
      show natListLe (c.toNat :: cs.flatMap utf16Units) (d.toNat :: ds.flatMap utf16Units) = _
      rw [natListLe, codePointLe]
      by_cases h1 : c.toNat < d.toNat
      · simp [h1]
      · by_cases h2 : d.toNat < c.toNat
        · simp [h1, h2]
        · simp only [h1, h2, if_false]
          exact natListLe_utf16_eq_codePointLe cs ds
            (fun e he => hx e (List.mem_cons_of_mem c he))
            (fun e he => hy e (List.mem_cons_of_mem d he))

/-- Model of `walk('.').sort()`: JavaScript's `Array.prototype.sort` with
the default comparator is a stable comparison sort by `strLe`; it is
modelled by the stable `List.insertionSort`. -/
def sortFiles (l : List String) : List String := l.insertionSort strLeRel

/-- The characters that JavaScript's `encodeURI` leaves unescaped:
ASCII letters and digits, the URI mark characters, and the reserved
characters (so `/` survives literally, keeping path separators intact). -/
def isUnescapedURI (c : Char) : Bool :=
  c.isAlpha || c.isDigit || ("-_.!~*\x27();/?:@&=+$,#".data).contains c

/-- Uppercase hexadecimal digit, as used by `encodeURI`'s percent escapes. -/
def hexDigit (n : Nat) : Char := if n < 10 then Char.ofNat (48 + n) else Char.ofNat (55 + n)

/-- UTF-8 encoding of a Unicode code point, as a list of byte values;
`encodeURI` percent-escapes each byte of the UTF-8 encoding. -/
def utf8Bytes (n : Nat) : List Nat :=
  if n < 128 then [n]
  else if n < 2048 then [192 + n / 64, 128 + n % 64]
  else if n < 65536 then [224 + n / 4096, 128 + n / 64 % 64, 128 + n % 64]
  else [240 + n / 262144, 128 + n / 4096 % 64, 128 + n / 64 % 64, 128 + n % 64]

/-- Percent-escape sequence for one character kept escaped by `encodeURI`. -/
def percentEscape (c : Char) : List Char :=
  (utf8Bytes c.toNat).flatMap (fun b => ['%', hexDigit (b / 16), hexDigit (b % 16)])

/-- Model of JavaScript's `encodeURI`: each character is kept literally if
it is in the unescaped set, and otherwise replaced by the percent-escapes
of its UTF-8 bytes. -/
def encodeURI (s : String) : String :=
  String.mk (s.data.flatMap (fun c => if isUnescapedURI c then [c] else percentEscape c))

/-- The fixed skeleton of the document up to and including the opening
`<ul>`, exactly as in the template literal of `generate_index.js` (both
variants share this text verbatim). -/
def htmlHeader : String :=
  "<!DOCTYPE html>\n<html lang=\"zh\">\n<head>\n  <meta charset=\"UTF-8\" />\n  <meta name=\"viewport\" content=\"width=device-width, initial-scale=1.0\"/>\n  <title>文件下载列表</title>\n  <style>\n    body \x7b font-family: -apple-system, BlinkMacSystemFont, sans-serif; padding: 2rem; max-width: 800px; margin: 0 auto; \x7d\n    h1 \x7b color: #333; \x7d\n    ul \x7b list-style: none; padding: 0; \x7d\n    li \x7b margin: 0.6rem 0; \x7d\n    a \x7b color: #0066cc; text-decoration: none; font-size: 1.1em; \x7d\n    a:hover \x7b text-decoration: underline; \x7d\n  </style>\n</head>\n<body>\n  <h1>📁 文件下载列表</h1>\n  <ul>\n"

/-- The fixed tail of the canonical variant: list close, static footer
note, document close.  Note the document ends at `</html>` with no
trailing newline. -/
def htmlFooter : String :=
  "  </ul>\n  <p><small>文件列表由自动化脚本生成</small></p>\n</body>\n</html>"

/-- The tail of the older variant, whose footer embeds the invocation
timestamp `new Date().toLocaleString('zh-CN')`, modelled as the string
argument `now`. -/
def footerTS (now : String) : String :=
  "  </ul>\n  <p><small>更新时间: " ++ now ++ "</small></p>\n</body>\n</html>"

/-- One iteration of the `files.forEach` loop: the list item appended for
one path, with the percent-encoded path in `href` and the raw path as the
visible link text. -/
def renderItem (f : String) : String :=
  "    <li><a href=\"" ++ encodeURI f ++ "\">" ++ f ++ "</a></li>\n"

/-- Canonical variant: the complete rendered document, built exactly as the
script builds its `html` variable by repeated `+=` and closed by the static
footer. -/
def renderDoc (files : List String) : String :=
  files.foldl (fun h f => h ++ renderItem f) htmlHeader ++ htmlFooter

/-- Older variant: the same accumulation, closed by the timestamp footer. -/
def renderDocTS (files : List String) (now : String) : String :=
  files.foldl (fun h f => h ++ renderItem f) htmlHeader ++ footerTS now

/-- Canonical variant, whole read-render stage: `walk('.').sort()` rendered
into the document. -/
def generateIndexDoc (tree : FSList) : String := renderDoc (sortFiles (walkEntries "" tree))

/-- One run of the canonical pipeline as a function of the filesystem tree
and of the wall clock at invocation time.  The canonical script never
constructs a `Date`, so the clock argument is not consumed. -/
def runPipeline (tree : FSList) (now : String) : String := generateIndexDoc tree

/-- The fixed output path `index.html` of the writer stage. -/
def outputPath : String := "index.html"

/-- Model of the change-detection guard: `shouldWrite` stays `true` unless
the output file exists (`existing = some e`) and its content equals the
fresh document. -/
def shouldWrite (existing : Option String) (html : String) : Bool :=
  match existing with
  | none => true
  | some e => if e = html then false else true

/-- The writer's filesystem writes, as a list of (path, content) pairs:
one whole-file write of the rendered document when the guard fires, and
none otherwise. -/
def writerWrites (existing : Option String) (html : String) : List (String × String) :=
  if shouldWrite existing html then [(outputPath, html)] else []

/-- Full observable outcome of the writer stage: whether `writeFileSync`
was called, the resulting content of `index.html`, and the console lines
printed, in order, matching the three `console.log` calls of the script. -/
def runWriter (existing : Option String) (html : String) (count : Nat) :
    Bool × String × List String :=
  let sw := shouldWrite existing html
  let logs1 : List String :=
    match existing with
    | none => []
    | some e => if e = html then ["⏩ index.html 无变化，跳过写入"] else []
  if sw then
    (true, html, logs1 ++ ["✅ 已更新 index.html，共 " ++ toString count ++ " 个文件"])
  else
    (false, existing.getD "", logs1 ++ ["ℹ️ 当前文件数：" ++ toString count])

/-- Model of `fullPath.replace(/^\.\/?/, '')` in the older variant: one
leading dot, together with a directly following slash if present, is
removed. -/
def stripDotSlash (s : String) : String :=
  match s.data with
  | [] => s
  | c :: rest =>
      if c = '.' then
        match rest with
        | [] => String.mk []
        | d :: rest2 => if d = '/' then String.mk rest2 else String.mk rest
      else s

mutual
/-- Older variant: one entry of its `walk`.  There is no hidden-entry
check: every directory is recursed into and every file with a matching
extension is collected, its path stripped of a leading `./` or `.`. -/
def walkVEntry (pre : String) : FSEntry → List String
  | FSEntry.file n => if extMatches n then [stripDotSlash (joinPath pre n)] else []
  | FSEntry.dir n cs => walkVEntries (joinPath pre n) cs
/-- Older variant: its `walk` over a directory listing, concatenating in
listing order (the JS version concatenates recursive results). -/
def walkVEntries (pre : String) : FSList → List String
  | FSList.nil => []
  | FSList.cons e es => walkVEntry pre e ++ walkVEntries pre es
end

mutual
/-- True when an entry and everything below it has no name starting with a
dot (no hidden entries at any depth). -/
def dotFreeE : FSEntry → Bool
  | FSEntry.file n => !startsWithDot n
  | FSEntry.dir n cs => !startsWithDot n && dotFreeL cs
/-- True when no entry anywhere in the listing is hidden. -/
def dotFreeL : FSList → Bool
  | FSList.nil => true
  | FSList.cons e es => dotFreeE e && dotFreeL es
end

mutual
/-- The files of the tree, as seen by the spec's filter clause: each with
the list of ancestor directory names below the root, the file's own base
name, and its joined relative path. -/
def allFilesE (anc : List String) (pre : String) : FSEntry → List (List String × String × String)
  | FSEntry.file n => [(anc, n, joinPath pre n)]
  | FSEntry.dir n cs => allFilesL (anc ++ [n]) (joinPath pre n) cs
/-- All files of a listing with their ancestor names and joined paths. -/
def allFilesL (anc : List String) (pre : String) : FSList → List (List String × String × String)
  | FSList.nil => []
  | FSList.cons e es => allFilesE anc pre e ++ allFilesL anc pre es
end

/-- The canonical filter, phrased over a file's context: whitelisted
extension, own name not hidden, and no hidden ancestor directory. -/
def specKeep (x : List String × String × String) : Bool :=
  extMatches x.2.1 && !startsWithDot x.2.1 && x.1.all (fun d => !startsWithDot d)

mutual
theorem mem_allFilesE_anc (anc : List String) (pre : String) (e : FSEntry) :
    ∀ x ∈ allFilesE anc pre e, ∃ t, x.1 = anc ++ t := by
  cases e with
  | file n =>
      intro x hx
      simp only [allFilesE, List.mem_singleton] at hx
      exact ⟨[], by simp [hx]⟩
  | dir n cs =>
      intro x hx
      obtain ⟨t, ht⟩ := mem_allFilesL_anc (anc ++ [n]) (joinPath pre n) cs x hx
      exact ⟨[n] ++ t, by simp [ht]⟩
theorem mem_allFilesL_anc (anc : List String) (pre : String) (es : FSList) :
    ∀ x ∈ allFilesL anc pre es, ∃ t, x.1 = anc ++ t := by
  cases es with
  | nil => intro x hx; simp [allFilesL] at hx
  | cons e es =>
      intro x hx
      simp only [allFilesL, List.mem_append] at hx
      rcases hx with hx | hx
      · exact mem_allFilesE_anc anc pre e x hx
      · exact mem_allFilesL_anc anc pre es x hx
end

mutual
/-- Fundamental correspondence for one entry: below any chain of
non-hidden ancestors, the canonical `walk` collects exactly the paths of
the files that pass the spec filter `specKeep`. -/
theorem walkEntry_eq_spec (anc : List String) (pre : String) (e : FSEntry)
    (h : anc.all (fun d => !startsWithDot d) = true) :
    walkEntry pre e = ((allFilesE anc pre e).filter specKeep).map (fun x => x.2.2) := by
  cases e with
  | file n =>
      by_cases hn : startsWithDot n = true
      · simp [walkEntry, allFilesE, hn, specKeep]
      · by_cases hm : extMatches n = true
        · simp [walkEntry, allFilesE, hn, hm, specKeep, h, Bool.eq_false_iff.mpr]
        · simp [walkEntry, allFilesE, hn, hm, specKeep]
  | dir n cs =>
      by_cases hn : startsWithDot n = true
      · have hnil : ((allFilesE anc pre (FSEntry.dir n cs)).filter specKeep) = [] := by
          rw [List.filter_eq_nil_iff]
          intro x hx
          simp only [allFilesE] at hx
          obtain ⟨t, ht⟩ := mem_allFilesL_anc (anc ++ [n]) (joinPath pre n) cs x hx
          simp [specKeep, ht, List.all_append, hn]
        simp [walkEntry, hn, hnil]
      · have h' : (anc ++ [n]).all (fun d => !startsWithDot d) = true := by
          simp [List.all_append, h, hn]
        have := walkEntries_eq_spec (anc ++ [n]) (joinPath pre n) cs h'
        simp only [walkEntry, allFilesE, hn, if_false]
        simpa using this
/-- Fundamental correspondence for a listing. -/
theorem walkEntries_eq_spec (anc : List String) (pre : String) (es : FSList)
    (h : anc.all (fun d => !startsWithDot d) = true) :
    walkEntries pre es = ((allFilesL anc pre es).filter specKeep).map (fun x => x.2.2) := by
  cases es with
  | nil => rfl
  | cons e es =>
      rw [walkEntries, allFilesL, List.filter_append, List.map_append,
        walkEntry_eq_spec anc pre e h, walkEntries_eq_spec anc pre es h]
end

mutual
/-- Every path collected by the canonical `walk` is the join of some
directory path with a file name that passed the extension test and the
hidden-name test. -/
theorem mem_walkEntry_shape (pre : String) (e : FSEntry) :
    ∀ p ∈ walkEntry pre e,
      ∃ q n, p = joinPath q n ∧ extMatches n = true ∧ startsWithDot n = false := by
  cases e with
  | file n =>
      intro p hp
      by_cases hn : startsWithDot n = true
      · simp [walkEntry, hn] at hp
      · by_cases hm : extMatches n = true
        · refine ⟨pre, n, ?_, hm, by simpa using hn⟩
          simp [walkEntry, hn, hm] at hp
          simp [hp]
        · simp [walkEntry, hn, hm] at hp
  | dir n cs =>
      intro p hp
      by_cases hn : startsWithDot n = true
      · simp [walkEntry, hn] at hp
      · simp only [walkEntry, hn, if_false] at hp
        exact mem_walkEntries_shape (joinPath pre n) cs p hp
/-- Listing version of `mem_walkEntry_shape`. -/
theorem mem_walkEntries_shape (pre : String) (es : FSList) :
    ∀ p ∈ walkEntries pre es,
      ∃ q n, p = joinPath q n ∧ extMatches n = true ∧ startsWithDot n = false := by
  cases es with
  | nil => intro p hp; simp [walkEntries] at hp
  | cons e es =>
      intro p hp
      simp only [walkEntries, List.mem_append] at hp
      rcases hp with hp | hp
      · exact mem_walkEntry_shape pre e p hp
      · exact mem_walkEntries_shape pre es p hp
end

theorem data_mk (l : List Char) : (String.mk l).data = l := rfl

/-- Concatenation of a list of strings, in order. -/
def strConcat : List String → String
  | [] => ""
  | s :: ss => s ++ strConcat ss

/-- The `html += item` accumulation of the `forEach` loop is the initial
string followed by the concatenation of the rendered items in order. -/
theorem foldl_renderItem_eq (fs : List String) (init : String) :
    fs.foldl (fun h f => h ++ renderItem f) init = init ++ strConcat (fs.map renderItem) := by
  induction fs generalizing init with
  | nil => simp [strConcat, String.append_empty]
  | cons f fs ih => rw [List.map_cons, List.foldl_cons, ih, strConcat, ← String.append_assoc]

theorem encodeURI_append (a b : String) : encodeURI (a ++ b) = encodeURI a ++ encodeURI b := by
  obtain ⟨la⟩ := a
  obtain ⟨lb⟩ := b
  show String.mk ((la ++ lb).flatMap _) = String.mk (la.flatMap _) ++ String.mk (lb.flatMap _)
  show String.mk ((la ++ lb).flatMap _) = String.mk (la.flatMap _ ++ lb.flatMap _)
  exact congrArg String.mk (List.flatMap_append ..)

theorem startsWithDot_append (a b : String) (h : a ≠ "") :
    startsWithDot (a ++ b) = startsWithDot a := by
  obtain ⟨la⟩ := a
  cases la with
  | nil => exact absurd rfl h
  | cons c cs =>
      obtain ⟨lb⟩ := b
      show startsWithDot (String.mk ((c :: cs) ++ lb)) = _
      simp [startsWithDot]

theorem startsWithDot_joinPath (p n : String) (hp : startsWithDot p = false)
    (hn : startsWithDot n = false) : startsWithDot (joinPath p n) = false := by
  by_cases hp0 : p = ""
  · simpa [joinPath, hp0] using hn
  · have hslash : p ++ "/" ≠ "" := by
      intro he
      have : p.data ++ ['/'] = [] := by
        have := congrArg String.data he
        simpa [String.data_append] using this
      simp at this
    rw [joinPath, if_neg hp0, startsWithDot_append (p ++ "/") n hslash,
      startsWithDot_append p "/" hp0]
    exact hp

theorem stripDotSlash_eq_self (s : String) (h : startsWithDot s = false) :
    stripDotSlash s = s := by
  obtain ⟨l⟩ := s
  cases l with
  | nil => rfl
  | cons c rest =>
      have hc : ¬ c = '.' := by
        simpa [startsWithDot] using h
      simp [stripDotSlash, hc]

mutual
/-- On a tree with no hidden entries, reached along a non-hidden path, the
older variant's `walk` collects exactly what the canonical `walk` does. -/
theorem walkVEntry_eq_walkEntry (pre : String) (e : FSEntry)
    (hp : startsWithDot pre = false) (he : dotFreeE e = true) :
    walkVEntry pre e = walkEntry pre e := by
  cases e with
  | file n =>
      have hn : startsWithDot n = false := by
        simpa [dotFreeE] using he
      by_cases hm : extMatches n = true
      · simp [walkVEntry, walkEntry, hm, hn,
          stripDotSlash_eq_self _ (startsWithDot_joinPath pre n hp hn)]
      · simp [walkVEntry, walkEntry, hm, hn]
  | dir n cs =>
      rw [dotFreeE, Bool.and_eq_true] at he
      have hn : startsWithDot n = false := by
        simpa using he.1
      rw [walkVEntry, walkEntry, if_neg (by simp [hn])]
      exact walkVEntries_eq_walkEntries (joinPath pre n) cs
        (startsWithDot_joinPath pre n hp hn) he.2
/-- Listing version of `walkVEntry_eq_walkEntry`. -/
theorem walkVEntries_eq_walkEntries (pre : String) (es : FSList)
    (hp : startsWithDot pre = false) (he : dotFreeL es = true) :
    walkVEntries pre es = walkEntries pre es := by
  cases es with
  | nil => rfl
  | cons e es =>
      rw [dotFreeL, Bool.and_eq_true] at he
      rw [walkVEntries, walkEntries, walkVEntry_eq_walkEntry pre e hp he.1,
        walkVEntries_eq_walkEntries pre es hp he.2]
end

/-- Concatenation of directory listings, used to talk about inserting an
entry at an arbitrary position of a listing. -/
def fsAppend : FSList → FSList → FSList
  | FSList.nil, b => b
  | FSList.cons e es, b => FSList.cons e (fsAppend es b)

theorem walkEntries_fsAppend (pre : String) (a b : FSList) :
    walkEntries pre (fsAppend a b) = walkEntries pre a ++ walkEntries pre b := by
  cases a with
  | nil => rfl
  | cons e es =>
      rw [fsAppend, walkEntries, walkEntries, walkEntries_fsAppend pre es b, List.append_assoc]

/-- Number of occurrences of a pattern in a character list (the pattern
occurrences of interest here cannot overlap themselves). -/
def countOccs (pat : List Char) : List Char → Nat
  | [] => 0
  | c :: rest => (if pat.isPrefixOf (c :: rest) then 1 else 0) + countOccs pat rest

/-- The characters strictly before the first occurrence of a pattern. -/
def takeBefore (pat : List Char) : List Char → List Char
  | [] => []
  | c :: rest => if pat.isPrefixOf (c :: rest) then [] else c :: takeBefore pat rest

/-- Claim C1, as stated, is false on the code: it says a file is collected
iff its extension is whitelisted and no ancestor directory is hidden, with
no condition on the file's own name.  The tree whose root holds the single
file `.a.txt` refutes it: that file has the whitelisted extension `txt`
and no hidden ancestor, yet the canonical `walk` skips it because its own
name starts with a dot. -/
theorem c1_counterexample :
    ¬ (∀ es : FSList, ∀ x ∈ allFilesL [] "" es,
        ((extMatches x.2.1 = true ∧ x.1.all (fun d => !startsWithDot d) = true)
          ↔ x.2.2 ∈ walkEntries "" es)) := by
  intro hclaim
  have hx := hclaim (FSList.cons (FSEntry.file ".a.txt") FSList.nil)
      ([], ".a.txt", ".a.txt") (by decide)
  have h2 := hx.mp ⟨by decide, by decide⟩
  exact absurd h2 (by decide)

/-- Claim C1 (amended): a path is in the collected list iff some file of
the scanned tree has that path, an extension (case-insensitively) in the
whitelist, a base name that does not start with a dot, and no ancestor
directory whose name starts with a dot. -/
theorem c1_theorem (es : FSList) (p : String) :
    p ∈ walkEntries "" es ↔
      ∃ x ∈ allFilesL [] "" es, x.2.2 = p ∧ extMatches x.2.1 = true ∧
        startsWithDot x.2.1 = false ∧ x.1.all (fun d => !startsWithDot d) = true := by
  rw [walkEntries_eq_spec [] "" es rfl]
  constructor
  · intro hp
    obtain ⟨x, hx, hpx⟩ := List.mem_map.mp hp
    obtain ⟨hxmem, hkeep⟩ := List.mem_filter.mp hx
    simp only [specKeep, Bool.and_eq_true, Bool.not_eq_true'] at hkeep
    exact ⟨x, hxmem, hpx, hkeep.1.1, hkeep.1.2, hkeep.2⟩
  · rintro ⟨x, hxmem, hpx, hm, hd, hanc⟩
    apply List.mem_map.mpr
    refine ⟨x, List.mem_filter.mpr ⟨hxmem, ?_⟩, hpx⟩
    simp only [specKeep, Bool.and_eq_true, Bool.not_eq_true']
    exact ⟨⟨hm, hd⟩, hanc⟩

/-- Claim C2: no hidden entry contributes to the output.  A hidden file or
hidden directory in any listing contributes nothing; every collected path
is witnessed by a file with a non-hidden name and only non-hidden
ancestors; and on the claim's three examples: `a/.git/config` and `.env`
are never collected while `a/b.txt` is. -/
theorem c2_theorem :
    (∀ pre n es, startsWithDot n = true →
        walkEntries pre (FSList.cons (FSEntry.file n) es) = walkEntries pre es)
    ∧ (∀ pre n cs es, startsWithDot n = true →
        walkEntries pre (FSList.cons (FSEntry.dir n cs) es) = walkEntries pre es)
    ∧ (∀ es p, p ∈ walkEntries "" es →
        ∃ x ∈ allFilesL [] "" es, x.2.2 = p ∧ startsWithDot x.2.1 = false ∧
          x.1.all (fun d => !startsWithDot d) = true)
    ∧ walkEntries "" (FSList.cons (FSEntry.dir "a" (FSList.cons
        (FSEntry.dir ".git" (FSList.cons (FSEntry.file "config") FSList.nil))
        FSList.nil)) FSList.nil) = []
    ∧ walkEntries "" (FSList.cons (FSEntry.file ".env") FSList.nil) = []
    ∧ walkEntries "" (FSList.cons (FSEntry.dir "a" (FSList.cons (FSEntry.file "b.txt")
        FSList.nil)) FSList.nil) = ["a/b.txt"] := by
  refine ⟨?_, ?_, ?_, by decide, by decide, by decide⟩
  · intro pre n es hn
    simp [walkEntries, walkEntry, hn]
  · intro pre n cs es hn
    simp [walkEntries, walkEntry, hn]
  · intro es p hp
    rw [walkEntries_eq_spec [] "" es rfl] at hp
    obtain ⟨x, hx, hpx⟩ := List.mem_map.mp hp
    obtain ⟨hxmem, hkeep⟩ := List.mem_filter.mp hx
    simp only [specKeep, Bool.and_eq_true, Bool.not_eq_true'] at hkeep
    exact ⟨x, hxmem, hpx, hkeep.1.2, hkeep.2⟩

/-- Witness for `c2_theorem` at concrete inputs: the hidden file `.env`
and the hidden directory `.git` each contribute nothing, and a concrete
collected path is witnessed by a non-hidden file. -/
theorem c2_witness :
    walkEntries "x" (FSList.cons (FSEntry.file ".env") FSList.nil) = walkEntries "x" FSList.nil
    ∧ walkEntries "x" (FSList.cons (FSEntry.dir ".git" FSList.nil) FSList.nil)
        = walkEntries "x" FSList.nil
    ∧ ∃ x ∈ allFilesL [] "" (FSList.cons (FSEntry.dir "a" (FSList.cons
          (FSEntry.file "b.txt") FSList.nil)) FSList.nil),
        x.2.2 = "a/b.txt" ∧ startsWithDot x.2.1 = false ∧
          x.1.all (fun d => !startsWithDot d) = true :=
  ⟨c2_theorem.1 "x" ".env" FSList.nil (by decide),
   c2_theorem.2.1 "x" ".git" FSList.nil FSList.nil (by decide),
   c2_theorem.2.2.1 (FSList.cons (FSEntry.dir "a" (FSList.cons (FSEntry.file "b.txt")
     FSList.nil)) FSList.nil) "a/b.txt" (by decide)⟩

/-- Claim C3, as stated, is false on the code: JavaScript's default sort
compares UTF-16 code-unit sequences, not code points, and the two orders
diverge on supplementary-plane names.  For the two one-character paths
U+10000 and U+E000, the sorted output puts U+10000 first (its lead
surrogate 0xD800 is below 0xE000), which is not ascending code-point
order, U+10000 being the larger code point. -/
theorem c3_counterexample :
    sortFiles [String.mk [Char.ofNat 57344], String.mk [Char.ofNat 65536]]
        = [String.mk [Char.ofNat 65536], String.mk [Char.ofNat 57344]]
    ∧ strCpLe (String.mk [Char.ofNat 65536]) (String.mk [Char.ofNat 57344]) = false
    ∧ (Char.ofNat 65536).toNat > (Char.ofNat 57344).toNat := by
  exact ⟨by decide, by decide, by decide⟩

/-- Claim C3 (amended): the sequence handed to the renderer is sorted
ascending by lexicographic UTF-16 code-unit comparison — JavaScript's
default sort order — which coincides with code-point comparison on paths
with no supplementary-plane characters: `sortFiles` always yields a
sequence sorted by `strLe` and a permutation of its input; `strLe` equals
the code-point order on such paths; the claim's example list sorts to
`a.md`, `a/a.txt`, `b.txt` and renders in that order; and `README.md`
sorts before `data.json` because uppercase code points precede lowercase
ones. -/
theorem c3_theorem :
    (∀ l : List String, (sortFiles l).Sorted strLeRel ∧ (sortFiles l).Perm l)
    ∧ (∀ a b : String, (∀ c ∈ a.data, c.toNat < 65536) → (∀ c ∈ b.data, c.toNat < 65536) →
        strLe a b = strCpLe a b)
    ∧ sortFiles ["b.txt", "a.md", "a/a.txt"] = ["a.md", "a/a.txt", "b.txt"]
    ∧ renderDoc (sortFiles ["b.txt", "a.md", "a/a.txt"])
        = renderDoc ["a.md", "a/a.txt", "b.txt"]
    ∧ strLe "README.md" "data.json" = true
    ∧ strCpLe "README.md" "data.json" = true
    ∧ strLe "data.json" "README.md" = false
    ∧ sortFiles ["data.json", "README.md"] = ["README.md", "data.json"] := by
  have hs : sortFiles ["b.txt", "a.md", "a/a.txt"] = ["a.md", "a/a.txt", "b.txt"] := by decide
  exact ⟨fun l => ⟨List.sorted_insertionSort strLeRel l, List.perm_insertionSort strLeRel l⟩,
    fun a b ha hb => natListLe_utf16_eq_codePointLe a.data b.data ha hb,
    hs, congrArg renderDoc hs, by decide, by decide, by decide, by decide⟩

/-- Witness for `c3_theorem`: the two orders agree on the concrete BMP
paths `b.txt` and `a.md`, and a concrete sort is sorted. -/
theorem c3_witness :
    strLe "b.txt" "a.md" = strCpLe "b.txt" "a.md"
    ∧ (sortFiles ["b.txt", "a.md"]).Sorted strLeRel :=
  ⟨c3_theorem.2.1 "b.txt" "a.md" (by decide) (by decide),
   (c3_theorem.1 ["b.txt", "a.md"]).1⟩

/-- Claim C4, as stated, is false on the code: it says reserved URI
characters are encoded in the `href`, but `encodeURI` — the call the
script makes — leaves every reserved character untouched.  The path
`a?b.txt` renders with `href` exactly `a?b.txt`, not `a%3Fb.txt`, and
likewise the reserved characters `?`, `&`, `#`, `=` all survive
unescaped. -/
theorem c4_counterexample :
    renderItem "a?b.txt" = "    <li><a href=\"a?b.txt\">a?b.txt</a></li>\n"
    ∧ encodeURI "a?b.txt" ≠ "a%3Fb.txt"
    ∧ encodeURI "a?&#=.txt" = "a?&#=.txt" := by
  exact ⟨by decide, by decide, by decide⟩

/-- Claim C4 (amended): the rendered document is the fixed header, then
one list item per path in order, then the fixed footer; each item's `href`
is the path with every character outside `encodeURI`'s unescaped set
(ASCII alphanumerics, marks, and the reserved URI characters) replaced by
the percent-escapes of its UTF-8 bytes, while characters in that set —
the reserved characters and the path separator `/` among them — are
preserved literally, and the visible link text is the raw path; the path
`notes 1.txt` yields `href` `notes%201.txt` with unchanged visible
text. -/
theorem c4_theorem :
    (∀ fs : List String,
        renderDoc fs = htmlHeader
          ++ strConcat (fs.map (fun f =>
              "    <li><a href=\"" ++ encodeURI f ++ "\">" ++ f ++ "</a></li>\n"))
          ++ htmlFooter)
    ∧ (∀ c : Char, isUnescapedURI c = true → encodeURI (String.mk [c]) = String.mk [c])
    ∧ (∀ c : Char, isUnescapedURI c = false → encodeURI (String.mk [c]) = String.mk (percentEscape c))
    ∧ (∀ a b : String, encodeURI (a ++ "/" ++ b) = encodeURI a ++ "/" ++ encodeURI b)
    ∧ ("-_.!~*\x27();/?:@&=+$,#".data).all isUnescapedURI = true
    ∧ encodeURI "/" = "/"
    ∧ encodeURI "notes 1.txt" = "notes%201.txt"
    ∧ renderItem "notes 1.txt" = "    <li><a href=\"notes%201.txt\">notes 1.txt</a></li>\n" := by
  refine ⟨?_, ?_, ?_, ?_, by decide, by decide, by decide, by decide⟩
  · intro fs
    unfold renderDoc
    rw [foldl_renderItem_eq]
    rfl
  · intro c hc
    simp [encodeURI, hc]
  · intro c hc
    simp [encodeURI, hc]
  · intro a b
    rw [encodeURI_append, encodeURI_append, show encodeURI "/" = "/" from by decide]

/-- Witness for `c4_theorem`: the unescaped letter `a` survives and the
space is percent-escaped. -/
theorem c4_witness :
    encodeURI (String.mk ['a']) = String.mk ['a']
    ∧ encodeURI (String.mk [' ']) = String.mk (percentEscape ' ') :=
  ⟨c4_theorem.2.1 'a' (by decide), c4_theorem.2.2.1 ' ' (by decide)⟩

/-- Claim C5: when a file already exists at the output path with exactly
the freshly rendered content, the writer performs no write, leaves the
content as it was, and reports the unchanged status with the file count;
otherwise (absent file or different content) it writes the rendered
document in full and reports the update. -/
theorem c5_theorem (existing : Option String) (html : String) (n : Nat) :
    (existing = some html →
      runWriter existing html n
        = (false, html, ["⏩ index.html 无变化，跳过写入", "ℹ️ 当前文件数：" ++ toString n]))
    ∧ (existing ≠ some html →
      runWriter existing html n
        = (true, html, ["✅ 已更新 index.html，共 " ++ toString n ++ " 个文件"])) := by
  constructor
  · rintro rfl
    simp [runWriter, shouldWrite]
  · intro hne
    cases existing with
    | none => simp [runWriter, shouldWrite]
    | some e =>
        have he : ¬ e = html := fun he => hne (by rw [he])
        simp [runWriter, shouldWrite, he]

/-- Witness for `c5_theorem`: with existing content equal to the fresh
document the writer skips and reports no change; with no existing file it
writes. -/
theorem c5_witness :
    runWriter (some "doc") "doc" 3
        = (false, "doc", ["⏩ index.html 无变化，跳过写入", "ℹ️ 当前文件数：" ++ toString 3])
    ∧ runWriter none "doc" 3
        = (true, "doc", ["✅ 已更新 index.html，共 " ++ toString 3 ++ " 个文件"]) :=
  ⟨(c5_theorem (some "doc") "doc" 3).1 rfl,
   (c5_theorem none "doc" 3).2 (fun h => Option.noConfusion h)⟩

/-- Claim C6: the canonical rendered document is a deterministic function
of the tree alone — two runs at arbitrary (and arbitrarily different)
wall-clock times produce byte-identical documents, with the document
determined by the sorted walk of the tree. -/
theorem c6_theorem (tree : FSList) (t₁ t₂ : String) :
    runPipeline tree t₁ = runPipeline tree t₂
    ∧ (runPipeline tree t₁).data = (runPipeline tree t₂).data
    ∧ runPipeline tree t₁ = renderDoc (sortFiles (walkEntries "" tree)) :=
  ⟨rfl, rfl, rfl⟩

/-- Claim C7: the writer performs at most one filesystem write; any write
goes to the fixed path `index.html` and carries exactly the in-memory
rendered document; and the rendered document ends at `</html>` with no
trailing newline (its last character is `>`). -/
theorem c7_theorem (existing : Option String) (html : String) (fs : List String) :
    (writerWrites existing html).length ≤ 1
    ∧ (∀ w ∈ writerWrites existing html, w.1 = outputPath ∧ w.2 = html)
    ∧ outputPath = "index.html"
    ∧ (∃ p, renderDoc fs = p ++ "</html>")
    ∧ (renderDoc fs).data.getLast? = some '>' := by
  refine ⟨?_, ?_, rfl, ?_, ?_⟩
  · unfold writerWrites
    split <;> simp
  · intro w hw
    unfold writerWrites at hw
    split at hw
    · rw [List.mem_singleton] at hw
      simp [hw]
    · simp at hw
  · refine ⟨fs.foldl (fun acc f => acc ++ renderItem f) htmlHeader
      ++ "  </ul>\n  <p><small>文件列表由自动化脚本生成</small></p>\n</body>\n", ?_⟩
    unfold renderDoc
    rw [String.append_assoc]
    exact congrArg (fun s => fs.foldl (fun acc f => acc ++ renderItem f) htmlHeader ++ s)
      (by decide)
  · unfold renderDoc
    rw [String.data_append, List.getLast?_append_of_ne_nil _ (by decide)]
    decide

/-- Witness for `c7_theorem`: with no existing file and document `"d"`, the
single write goes to `index.html` with content `"d"`, and the empty-list
document ends at `</html>`. -/
theorem c7_witness :
    (writerWrites none "d").length ≤ 1
    ∧ (("index.html", "d") : String × String).1 = outputPath
    ∧ (("index.html", "d") : String × String).2 = "d"
    ∧ (∃ p, renderDoc [] = p ++ "</html>")
    ∧ (renderDoc []).data.getLast? = some '>' :=
  ⟨(c7_theorem none "d" []).1,
   ((c7_theorem none "d" []).2.1 ("index.html", "d") (by decide)).1,
   ((c7_theorem none "d" []).2.1 ("index.html", "d") (by decide)).2,
   (c7_theorem none "d" []).2.2.2.1,
   (c7_theorem none "d" []).2.2.2.2⟩

set_option maxRecDepth 100000 in
/-- Claim C8, as stated, is false on the code: the two variants do not
differ only in the footer.  On the tree whose root holds the hidden
directory `.git` containing `config.txt`, the canonical document's list is
empty while the older variant — which never skips hidden entries — renders
one list item, so the documents already differ strictly before the footer
paragraph (the parts preceding the `  <p><small>` marker differ). -/
theorem c8_counterexample :
    takeBefore ("  <p><small>".data)
        (renderDoc (sortFiles (walkEntries ""
          (FSList.cons (FSEntry.dir ".git" (FSList.cons (FSEntry.file "config.txt")
            FSList.nil)) FSList.nil)))).data
      ≠ takeBefore ("  <p><small>".data)
        (renderDocTS (sortFiles (walkVEntries ""
          (FSList.cons (FSEntry.dir ".git" (FSList.cons (FSEntry.file "config.txt")
            FSList.nil)) FSList.nil))) "2024/1/1 00:00:00").data := by
  decide

/-- Claim C8 (amended): on every tree containing no hidden entries the two
variants' documents are identical except for the content of the footer
paragraph — both are the same list body followed by `  <p><small>`, then
either the static note or the timestamp, then the same closing text. -/
theorem c8_theorem (es : FSList) (t : String) (h : dotFreeL es = true) :
    renderDoc (sortFiles (walkEntries "" es))
        = (sortFiles (walkEntries "" es)).foldl (fun acc f => acc ++ renderItem f) htmlHeader
          ++ "  </ul>\n  <p><small>" ++ "文件列表由自动化脚本生成" ++ "</small></p>\n</body>\n</html>"
    ∧ renderDocTS (sortFiles (walkVEntries "" es)) t
        = (sortFiles (walkEntries "" es)).foldl (fun acc f => acc ++ renderItem f) htmlHeader
          ++ "  </ul>\n  <p><small>" ++ ("更新时间: " ++ t) ++ "</small></p>\n</body>\n</html>" := by
  have hw : walkVEntries "" es = walkEntries "" es := walkVEntries_eq_walkEntries "" es rfl h
  constructor
  · unfold renderDoc
    simp only [String.append_assoc]
    exact congrArg (fun s =>
      (sortFiles (walkEntries "" es)).foldl (fun acc f => acc ++ renderItem f) htmlHeader ++ s)
      (by decide)
  · rw [hw]
    unfold renderDocTS footerTS
    simp only [← String.append_assoc]
    exact congrArg (fun y => (y ++ t) ++ ("</small></p>\n</body>\n</html>" : String))
      (by rw [String.append_assoc]
          exact congrArg (fun y =>
            (sortFiles (walkEntries "" es)).foldl (fun acc f => acc ++ renderItem f) htmlHeader
              ++ y) (by decide))

/-- Witness for `c8_theorem` on the dot-free tree holding only `a.txt`. -/
theorem c8_witness :
    renderDoc (sortFiles (walkEntries "" (FSList.cons (FSEntry.file "a.txt") FSList.nil)))
        = (sortFiles (walkEntries "" (FSList.cons (FSEntry.file "a.txt") FSList.nil))).foldl
            (fun acc f => acc ++ renderItem f) htmlHeader
          ++ "  </ul>\n  <p><small>" ++ "文件列表由自动化脚本生成" ++ "</small></p>\n</body>\n</html>"
    ∧ renderDocTS (sortFiles (walkVEntries ""
          (FSList.cons (FSEntry.file "a.txt") FSList.nil))) "T"
        = (sortFiles (walkEntries "" (FSList.cons (FSEntry.file "a.txt") FSList.nil))).foldl
            (fun acc f => acc ++ renderItem f) htmlHeader
          ++ "  </ul>\n  <p><small>" ++ ("更新时间: " ++ "T") ++ "</small></p>\n</body>\n</html>" :=
  c8_theorem (FSList.cons (FSEntry.file "a.txt") FSList.nil) "T" (by decide)

set_option maxRecDepth 100000 in
/-- Claim C9: the renderer emits exactly one list item per element of its
input and preserves duplicates: the document is the header plus the
concatenation of one rendered item per path plus the footer, the item
sequence has the length of the input, and on concrete inputs the anchor
marker `<li><a href=` occurs exactly as many times as the (duplicated)
input has elements. -/
theorem c9_theorem :
    (∀ fs : List String, renderDoc fs = htmlHeader ++ strConcat (fs.map renderItem) ++ htmlFooter)
    ∧ (∀ fs : List String, (fs.map renderItem).length = fs.length)
    ∧ countOccs ("<li><a href=".data) (renderDoc ["a.txt", "a.txt"]).data = 2
    ∧ countOccs ("<li><a href=".data) (renderDoc ["a.txt"]).data = 1
    ∧ countOccs ("<li><a href=".data) (renderDoc []).data = 0 := by
  refine ⟨?_, fun fs => by simp, by decide, by decide, by decide⟩
  intro fs
  unfold renderDoc
  rw [foldl_renderItem_eq]

/-- Claim C10: the output never indexes itself.  `index.html` fails the
extension whitelist; no walk of any tree collects the path `index.html`;
a file named `index.html` contributes nothing wherever it sits in a
listing; and a second run over the same tree after `index.html` has been
created renders the identical document, so the writer skips the write and
reports no change. -/
theorem c10_theorem :
    extMatches "index.html" = false
    ∧ (∀ es : FSList, "index.html" ∉ walkEntries "" es)
    ∧ (∀ pre, walkEntry pre (FSEntry.file "index.html") = [])
    ∧ (∀ es₁ es₂, walkEntries "" (fsAppend es₁ (FSList.cons (FSEntry.file "index.html") es₂))
        = walkEntries "" (fsAppend es₁ es₂))
    ∧ (∀ es₁ es₂ n,
        runWriter (some (generateIndexDoc (fsAppend es₁ es₂)))
            (generateIndexDoc (fsAppend es₁ (FSList.cons (FSEntry.file "index.html") es₂))) n
          = (false, generateIndexDoc (fsAppend es₁ es₂),
              ["⏩ index.html 无变化，跳过写入", "ℹ️ 当前文件数：" ++ toString n])) := by
  have hepty : walkEntry "" (FSEntry.file "index.html") = [] := by decide
  have hpre : ∀ pre, walkEntry pre (FSEntry.file "index.html") = [] := by
    intro pre
    have h1 : startsWithDot "index.html" = false := by decide
    have h2 : extMatches "index.html" = false := by decide
    simp [walkEntry, h1, h2]
  have hins : ∀ es₁ es₂ : FSList,
      walkEntries "" (fsAppend es₁ (FSList.cons (FSEntry.file "index.html") es₂))
        = walkEntries "" (fsAppend es₁ es₂) := by
    intro es₁ es₂
    rw [walkEntries_fsAppend, walkEntries_fsAppend, walkEntries, hepty]
    simp
  refine ⟨by decide, ?_, hpre, hins, ?_⟩
  · intro es hmem
    obtain ⟨q, n, hp, hm, _⟩ := mem_walkEntries_shape "" es "index.html" hmem
    by_cases hq : q = ""
    · rw [hq, joinPath, if_pos rfl] at hp
      rw [← hp] at hm
      exact absurd hm (by decide)
    · rw [joinPath, if_neg hq] at hp
      have hd := congrArg String.data hp
      rw [String.data_append, String.data_append] at hd
      have hsl : '/' ∈ ("index.html" : String).data := by
        rw [hd]
        simp
      exact absurd hsl (by decide)
  · intro es₁ es₂ n
    have h4 : generateIndexDoc (fsAppend es₁ (FSList.cons (FSEntry.file "index.html") es₂))
        = generateIndexDoc (fsAppend es₁ es₂) := by
      unfold generateIndexDoc
      rw [hins es₁ es₂]
    rw [h4]
    simp [runWriter, shouldWrite]

/-- Witness for `c10_theorem` at concrete inputs: `index.html` placed in a
one-file tree is not collected, contributes nothing, and a rerun over the
grown tree reports no change. -/
theorem c10_witness :
    extMatches "index.html" = false
    ∧ "index.html" ∉ walkEntries "" (FSList.cons (FSEntry.file "a.txt") FSList.nil)
    ∧ walkEntry "sub" (FSEntry.file "index.html") = []
    ∧ walkEntries "" (fsAppend (FSList.cons (FSEntry.file "a.txt") FSList.nil)
        (FSList.cons (FSEntry.file "index.html") FSList.nil))
      = walkEntries "" (fsAppend (FSList.cons (FSEntry.file "a.txt") FSList.nil) FSList.nil)
    ∧ runWriter (some (generateIndexDoc (fsAppend (FSList.cons (FSEntry.file "a.txt")
            FSList.nil) FSList.nil)))
          (generateIndexDoc (fsAppend (FSList.cons (FSEntry.file "a.txt") FSList.nil)
            (FSList.cons (FSEntry.file "index.html") FSList.nil))) 1
        = (false, generateIndexDoc (fsAppend (FSList.cons (FSEntry.file "a.txt") FSList.nil)
            FSList.nil),
            ["⏩ index.html 无变化，跳过写入", "ℹ️ 当前文件数：" ++ toString 1]) :=
  ⟨c10_theorem.1,
   c10_theorem.2.1 (FSList.cons (FSEntry.file "a.txt") FSList.nil),
   c10_theorem.2.2.1 "sub",
   c10_theorem.2.2.2.1 (FSList.cons (FSEntry.file "a.txt") FSList.nil)
     (FSList.cons (FSEntry.file "index.html") FSList.nil),
   c10_theorem.2.2.2.2 (FSList.cons (FSEntry.file "a.txt") FSList.nil)
     (FSList.cons (FSEntry.file "index.html") FSList.nil) 1⟩

/-- Witness for `c1_theorem` at a concrete tree and path: `a/b.txt` inside
directory `a` is collected and witnessed by its tree entry. -/
theorem c1_witness :
    "a/b.txt" ∈ walkEntries "" (FSList.cons (FSEntry.dir "a" (FSList.cons
        (FSEntry.file "b.txt") FSList.nil)) FSList.nil) ↔
      ∃ x ∈ allFilesL [] "" (FSList.cons (FSEntry.dir "a" (FSList.cons
          (FSEntry.file "b.txt") FSList.nil)) FSList.nil),
        x.2.2 = "a/b.txt" ∧ extMatches x.2.1 = true ∧
          startsWithDot x.2.1 = false ∧ x.1.all (fun d => !startsWithDot d) = true :=
  c1_theorem (FSList.cons (FSEntry.dir "a" (FSList.cons (FSEntry.file "b.txt") FSList.nil))
    FSList.nil) "a/b.txt"
